import Mathlib

/-!
Verification of the EV utility-function scoring core
(`src/server.py`, `src/app.py` of `utility-function-mcp`).

Numbers are modelled as exact rationals (`ℚ`); Python values arriving from
JSON are modelled by the inductive `Json` below.  Python `dict`s are
modelled as association lists (`List (String × _)`) with first-match
lookup; dicts built by `json.loads` have unique keys, for which this
agrees with Python semantics.  Fallible Python code (raised exceptions)
is modelled with `Except`.
-/

namespace UtilityMCP

/-- A JSON value, as produced by Python's `json.loads`:
`null`/`True`/`False`/numbers/strings/lists/dicts. -/
inductive Json where
  | null : Json
  | bool (b : Bool) : Json
  | num (q : ℚ) : Json
  | str (s : String) : Json
  | arr (elems : List Json) : Json
  | obj (fields : List (String × Json)) : Json

mutual

/-- Decidable equality for `Json` (the nested lists prevent `deriving`). -/
def Json.decEq : (a b : Json) → Decidable (a = b)
  | .null, .null => .isTrue rfl
  | .null, .bool _ => .isFalse (fun h => Json.noConfusion h)
  | .null, .num _ => .isFalse (fun h => Json.noConfusion h)
  | .null, .str _ => .isFalse (fun h => Json.noConfusion h)
  | .null, .arr _ => .isFalse (fun h => Json.noConfusion h)
  | .null, .obj _ => .isFalse (fun h => Json.noConfusion h)
  | .bool _, .null => .isFalse (fun h => Json.noConfusion h)
  | .bool x, .bool y =>
    if h : x = y then .isTrue (by rw [h])
    else .isFalse (fun hh => by cases hh; exact h rfl)
  | .bool _, .num _ => .isFalse (fun h => Json.noConfusion h)
  | .bool _, .str _ => .isFalse (fun h => Json.noConfusion h)
  | .bool _, .arr _ => .isFalse (fun h => Json.noConfusion h)
  | .bool _, .obj _ => .isFalse (fun h => Json.noConfusion h)
  | .num _, .null => .isFalse (fun h => Json.noConfusion h)
  | .num _, .bool _ => .isFalse (fun h => Json.noConfusion h)
  | .num x, .num y =>
    if h : x = y then .isTrue (by rw [h])
    else .isFalse (fun hh => by cases hh; exact h rfl)
  | .num _, .str _ => .isFalse (fun h => Json.noConfusion h)
  | .num _, .arr _ => .isFalse (fun h => Json.noConfusion h)
  | .num _, .obj _ => .isFalse (fun h => Json.noConfusion h)
  | .str _, .null => .isFalse (fun h => Json.noConfusion h)
  | .str _, .bool _ => .isFalse (fun h => Json.noConfusion h)
  | .str _, .num _ => .isFalse (fun h => Json.noConfusion h)
  | .str x, .str y =>
    if h : x = y then .isTrue (by rw [h])
    else .isFalse (fun hh => by cases hh; exact h rfl)
  | .str _, .arr _ => .isFalse (fun h => Json.noConfusion h)
  | .str _, .obj _ => .isFalse (fun h => Json.noConfusion h)
  | .arr _, .null => .isFalse (fun h => Json.noConfusion h)
  | .arr _, .bool _ => .isFalse (fun h => Json.noConfusion h)
  | .arr _, .num _ => .isFalse (fun h => Json.noConfusion h)
  | .arr _, .str _ => .isFalse (fun h => Json.noConfusion h)
  | .arr xs, .arr ys =>
    match Json.decEqList xs ys with
    | .isTrue h => .isTrue (by rw [h])
    | .isFalse h => .isFalse (fun hh => by cases hh; exact h rfl)
  | .arr _, .obj _ => .isFalse (fun h => Json.noConfusion h)
  | .obj _, .null => .isFalse (fun h => Json.noConfusion h)
  | .obj _, .bool _ => .isFalse (fun h => Json.noConfusion h)
  | .obj _, .num _ => .isFalse (fun h => Json.noConfusion h)
  | .obj _, .str _ => .isFalse (fun h => Json.noConfusion h)
  | .obj _, .arr _ => .isFalse (fun h => Json.noConfusion h)
  | .obj xs, .obj ys =>
    match Json.decEqKV xs ys with
    | .isTrue h => .isTrue (by rw [h])
    | .isFalse h => .isFalse (fun hh => by cases hh; exact h rfl)

/-- Decidable equality for lists of `Json`. -/
def Json.decEqList : (as bs : List Json) → Decidable (as = bs)
  | [], [] => .isTrue rfl
  | [], _ :: _ => .isFalse (fun h => List.noConfusion h)
  | _ :: _, [] => .isFalse (fun h => List.noConfusion h)
  | a :: as, b :: bs =>
    match Json.decEq a b, Json.decEqList as bs with
    | .isTrue h1, .isTrue h2 => .isTrue (by rw [h1, h2])
    | .isFalse h, _ => .isFalse (fun hh => by cases hh; exact h rfl)
    | _, .isFalse h => .isFalse (fun hh => by cases hh; exact h rfl)

/-- Decidable equality for string-keyed `Json` association lists. -/
def Json.decEqKV : (as bs : List (String × Json)) → Decidable (as = bs)
  | [], [] => .isTrue rfl
  | [], _ :: _ => .isFalse (fun h => List.noConfusion h)
  | _ :: _, [] => .isFalse (fun h => List.noConfusion h)
  | (k, v) :: as, (k2, v2) :: bs =>
    if hk : k = k2 then
      match Json.decEq v v2, Json.decEqKV as bs with
      | .isTrue h1, .isTrue h2 => .isTrue (by rw [hk, h1, h2])
      | .isFalse h, _ => .isFalse (fun hh => by cases hh; exact h rfl)
      | _, .isFalse h => .isFalse (fun hh => by cases hh; exact h rfl)
    else .isFalse (fun hh => by cases hh; exact hk rfl)

end

instance : DecidableEq Json := Json.decEq

instance {ε α : Type} [DecidableEq ε] [DecidableEq α] :
    DecidableEq (Except ε α)
  | .ok a, .ok b =>
    if h : a = b then .isTrue (by rw [h])
    else .isFalse (fun hh => by cases hh; exact h rfl)
  | .ok _, .error _ => .isFalse (fun h => Except.noConfusion h)
  | .error _, .ok _ => .isFalse (fun h => Except.noConfusion h)
  | .error e, .error f =>
    if h : e = f then .isTrue (by rw [h])
    else .isFalse (fun hh => by cases hh; exact h rfl)

/-- A Python dict whose values are JSON values (e.g. a car record). -/
abbrev Dict := List (String × Json)

/-- Error kinds raised by the core.  The Python code raises untyped
exceptions (`json.JSONDecodeError`, `AttributeError`, `ValueError` from
`float(...)`, `KeyError` from `coeffs[key]`); each is given a typed
constructor here, named after the spec's error taxonomy where it has a
name for it. -/
inductive CoreError where
  /-- `json.loads` raised on a stored value that is not valid JSON. -/
  | malformedCoefficients : CoreError
  /-- `.get("coeffs", ...)` called on a parsed value that is not a dict
  (Python `AttributeError`). -/
  | attributeError : CoreError
  /-- `float(val)` raised for a present feature value that is not
  coercible to a number (Python `ValueError`/`TypeError`). -/
  | invalidFeatureValue (key : String) : CoreError
  /-- `coeffs[key]` raised `KeyError` for an absent coefficient key. -/
  | missingCoefficient (key : String) : CoreError
  deriving BEq, DecidableEq, Repr

/-- `FEATURE_KEYS` from `server.py` line 30: feature keys in fixed order. -/
def FEATURE_KEYS : List String :=
  ["price", "range", "efficiency", "acceleration", "fast_charge", "seat_count"]

/-- `DEFAULT_COEFFS` from `server.py` lines 33-40, as a coefficient
dict (`dict[str, float]`, modelled `String × ℚ`). -/
def DEFAULT_COEFFS : List (String × ℚ) :=
  [("price", -1/2), ("range", 4/5), ("efficiency", -3/10),
   ("acceleration", -1/2), ("fast_charge", 3/5), ("seat_count", 2/5)]

/-- `DEFAULT_COEFFS` as the `Json` value it is when returned through
`get_user_coefficients` (whose result is drawn from parsed JSON). -/
def DEFAULT_COEFFS_json : Json :=
  .obj [("price", .num (-1/2)), ("range", .num (4/5)),
        ("efficiency", .num (-3/10)), ("acceleration", .num (-1/2)),
        ("fast_charge", .num (3/5)), ("seat_count", .num (2/5))]

/-- `redis_key = f"params:{user_id}"` from `server.py` line 47. -/
def redis_key (user_id : String) : String := "params:" ++ user_id

/-- The outcome of `redis.get` followed by `json.loads`
(`server.py` lines 48-57).  Both are external collaborators
(`upstash_redis`, the `json` stdlib), so they are modelled by their
observable outcome at the call site: `none` = no value stored at the
key, `some none` = a value is stored but is not valid JSON (so
`json.loads` raises), `some (some j)` = a value is stored and parses
to the JSON value `j`. -/
abbrev Store := String → Option (Option Json)

/-- `get_user_coefficients` from `server.py` lines 43-58.
Returns the default coefficients if the key is absent; propagates the
parse failure if the stored value is not valid JSON; otherwise returns
`data.get("coeffs", DEFAULT_COEFFS)` — the `"coeffs"` field as-is when
present, the full default otherwise. -/
def get_user_coefficients (store : Store) (user_id : String) :
    Except CoreError Json :=
  match store (redis_key user_id) with
  | none => .ok DEFAULT_COEFFS_json
  | some none => .error .malformedCoefficients
  | some (some j) =>
    match j with
    | .obj fields => .ok ((fields.lookup "coeffs").getD DEFAULT_COEFFS_json)
    | _ => .error .attributeError

/-- Python `float(val)` on a JSON-derived value: numbers pass through,
booleans coerce to `1`/`0`; strings, lists and dicts are not modelled
as coercible (Python `float` additionally parses numeric strings, which
nothing in the repository exercises) and raise. -/
def floatCoerce : Json → Option ℚ
  | .num q => some q
  | .bool b => some (if b then 1 else 0)
  | _ => none

/-- The inner `get_val` of `scale_features` (`server.py` lines 65-69):
`car_features.get(key)`; `None` (missing key, or stored JSON `null`)
yields `0.0`; otherwise `float(val)`. -/
def get_val (car_features : Dict) (key : String) : Except CoreError ℚ :=
  match car_features.lookup key with
  | none => .ok 0
  | some .null => .ok 0
  | some v =>
    match floatCoerce v with
    | some q => .ok q
    | none => .error (.invalidFeatureValue key)

/-- `scale_features` from `server.py` lines 61-80: the fixed-order
scaled vector `[price/1000, range/100, efficiency/10, acceleration,
fast_charge/100, seat_count]`. -/
def scale_features (car_features : Dict) : Except CoreError (List ℚ) := do
  let p ← get_val car_features "price"
  let r ← get_val car_features "range"
  let e ← get_val car_features "efficiency"
  let a ← get_val car_features "acceleration"
  let f ← get_val car_features "fast_charge"
  let s ← get_val car_features "seat_count"
  pure [p / 1000, r / 100, e / 10, a, f / 100, s]

/-- `coeffs[key]`: dict indexing, raising `KeyError` when absent. -/
def coeffIndex (coeffs : List (String × ℚ)) (key : String) :
    Except CoreError ℚ :=
  match coeffs.lookup key with
  | some c => .ok c
  | none => .error (.missingCoefficient key)

/-- The list comprehension `[coeffs[key] for key in keys]`
(`server.py` line 88): indexes `coeffs` left to right, so the first
absent key raises. -/
def coeffArray (coeffs : List (String × ℚ)) :
    List String → Except CoreError (List ℚ)
  | [] => .ok []
  | key :: rest => do
    let c ← coeffIndex coeffs key
    let cs ← coeffArray coeffs rest
    pure (c :: cs)

/-- `calculate_utility_score` from `server.py` lines 83-92:
scale the features, extract `[coeffs[key] for key in FEATURE_KEYS]`,
then the dot product
`sum(f * c for f, c in zip(scaled_features, coeff_array))`. -/
def calculate_utility_score (car_features : Dict)
    (coeffs : List (String × ℚ)) : Except CoreError ℚ := do
  let scaled_features ← scale_features car_features
  let coeff_array ← coeffArray coeffs FEATURE_KEYS
  pure ((List.zip scaled_features coeff_array).foldl
    (fun acc fc => acc + fc.1 * fc.2) 0)

/-- Python `{**car, "utility": v}` (`server.py` line 227, `app.py`
line 115): every key of `car` keeps its value and position; the
`"utility"` key is set to `v` — in place when `car` already has it,
appended at the end otherwise. -/
def dictSet (d : Dict) (key : String) (v : Json) : Dict :=
  if (d.lookup key).isSome then
    d.map (fun kv => if kv.1 = key then (key, v) else kv)
  else
    d ++ [(key, v)]

/-- `utility > best_utility` where `best_utility` was initialized to
`float('-inf')` (`server.py` line 222, `app.py` line 110): `none`
models `-inf`, which every rational exceeds. -/
def gtNegInf (u : ℚ) : Option ℚ → Bool
  | none => true
  | some b => decide (b < u)

/-- The `for car in cars` loop of `find_best_car`
(`server.py` lines 225-232), with the mutable `best_car`,
`best_utility`, `all_results` as accumulators. -/
def find_best_car_loop (coeffs : List (String × ℚ)) :
    List Dict → Option Dict → Option ℚ → List Dict →
    Except CoreError (Option Dict × List Dict)
  | [], best_car, _, all_results => .ok (best_car, all_results)
  | car :: rest, best_car, best_utility, all_results => do
    let utility ← calculate_utility_score car coeffs
    let car_result := dictSet car "utility" (.num utility)
    let all_results := all_results ++ [car_result]
    if gtNegInf utility best_utility then
      find_best_car_loop coeffs rest (some car_result) (some utility)
        all_results
    else
      find_best_car_loop coeffs rest best_car best_utility all_results

/-- The `find_best_car` branch of `handle_call_tool`
(`server.py` lines 213-244), after the coefficients have been
resolved: score every car in input order and track the strictly-best
one.  Returns `(best_car, all_results)`. -/
def find_best_car (coeffs : List (String × ℚ)) (cars : List Dict) :
    Except CoreError (Option Dict × List Dict) :=
  find_best_car_loop coeffs cars none none []

/-- Python `round` to an integer on an exact value: round half to even. -/
def pyRoundHalfEven (q : ℚ) : ℤ :=
  let f := ⌊q⌋
  let r := q - f
  if r < 1/2 then f
  else if 1/2 < r then f + 1
  else if f % 2 = 0 then f else f + 1

/-- `round(utility, 4)` from `app.py` line 115, on exact values. -/
def round4 (q : ℚ) : ℚ := (pyRoundHalfEven (q * 10000) : ℚ) / 10000

/-- The sort key `lambda x: x["utility"]` of `app.py` line 123, read
off a scored record (every record reaching the sort has a numeric
`"utility"` field, so the `0` fallback is never exercised). -/
def utilKey (r : Dict) : ℚ :=
  match r.lookup "utility" with
  | some (.num q) => q
  | _ => 0

/-- `all_results.sort(key=lambda x: x["utility"], reverse=True)` as an
ordering function: `a` may precede `b` iff `a`'s utility is at least
`b`'s; ties keep input order under a stable sort. -/
def utilDescLE (a b : Dict) : Bool := decide (utilKey b ≤ utilKey a)

/-- The `for car in cars` loop of `find_best_from_list`
(`app.py` lines 113-120).  The recorded `"utility"` is rounded to 4
decimal places; the best-tracking comparison uses the unrounded
utility. -/
def find_best_from_list_loop (coeffs : List (String × ℚ)) :
    List Dict → Option Dict → Option ℚ → List Dict →
    Except CoreError (Option Dict × List Dict)
  | [], best_car, _, all_results => .ok (best_car, all_results)
  | car :: rest, best_car, best_utility, all_results => do
    let utility ← calculate_utility_score car coeffs
    let car_result := dictSet car "utility" (.num (round4 utility))
    let all_results := all_results ++ [car_result]
    if gtNegInf utility best_utility then
      find_best_from_list_loop coeffs rest (some car_result)
        (some utility) all_results
    else
      find_best_from_list_loop coeffs rest best_car best_utility
        all_results

/-- `find_best_from_list` from `app.py` lines 103-137, after JSON
parsing and coefficient resolution: score every car, then stably sort
the scored records by utility descending.  Python's `list.sort` is a
stable merge sort; `List.mergeSort` with the total order `utilDescLE`
models it exactly (equal keys satisfy `utilDescLE` both ways, and the
stable merge keeps earlier input elements first). -/
def find_best_from_list (coeffs : List (String × ℚ)) (cars : List Dict) :
    Except CoreError (Option Dict × List Dict) := do
  let (best_car, all_results) ←
    find_best_from_list_loop coeffs cars none none []
  pure (best_car, all_results.mergeSort utilDescLE)

/-- Utility of a scored record, when its `"utility"` field is numeric. -/
def utilQ (r : Dict) : Option ℚ :=
  match r.lookup "utility" with
  | some (.num q) => some q
  | _ => none

/-- The Tesla Model 3 example record (`app.py` lines 142-150,
`test_local.py`), feature fields only. -/
def teslaCar : Dict :=
  [("price", .num 45000), ("range", .num 500), ("efficiency", .num 150),
   ("acceleration", .num (61/10)), ("fast_charge", .num 170),
   ("seat_count", .num 5)]

/-- The in-order scored records built by the `find_best_from_list` loop
(`app.py` lines 113-116): each input record augmented with its rounded
utility, in input order. -/
def score_all (coeffs : List (String × ℚ)) :
    List Dict → Except CoreError (List Dict)
  | [] => .ok []
  | car :: rest => do
    let u ← calculate_utility_score car coeffs
    let cs ← score_all coeffs rest
    pure (dictSet car "utility" (.num (round4 u)) :: cs)

/-- Loop invariant for best-tracking (`server.py` lines 221-232):
either nothing has been processed, or the current best is the first
accumulated record whose utility attains the running maximum. -/
def BestInv (best_car : Option Dict) (best_utility : Option ℚ)
    (acc : List Dict) : Prop :=
  (best_car = none ∧ best_utility = none ∧ acc = []) ∨
  (∃ b u, best_car = some b ∧ best_utility = some u ∧ utilQ b = some u ∧
    (∀ r ∈ acc, ∃ q, utilQ r = some q ∧ q ≤ u) ∧
    acc.find? (fun r => decide (utilQ r = some u)) = some b)

/-- What the best-tracking loop guarantees about its returned pair:
an empty run returns no best; otherwise the best is the first
accumulated record attaining the maximum utility. -/
def BestOut (best_car : Option Dict) (acc : List Dict) : Prop :=
  (best_car = none ∧ acc = []) ∨
  (∃ b u, best_car = some b ∧ utilQ b = some u ∧
    (∀ r ∈ acc, ∃ q, utilQ r = some q ∧ q ≤ u) ∧
    acc.find? (fun r => decide (utilQ r = some u)) = some b)

/-! ### Evaluation helper lemmas -/

theorem exceptBind_ok {ε α β : Type} (a : α) (f : α → Except ε β) :
    (Except.ok a : Except ε α) >>= f = f a := rfl

theorem exceptBind_error {ε α β : Type} (e : ε) (f : α → Except ε β) :
    (Except.error e : Except ε α) >>= f = .error e := rfl

theorem exceptMap_ok {ε α β : Type} (f : α → β) (a : α) :
    f <$> (Except.ok a : Except ε α) = .ok (f a) := rfl

theorem exceptMap_error {ε α β : Type} (f : α → β) (e : ε) :
    f <$> (Except.error e : Except ε α) = .error e := rfl

theorem lookup_cons_eq {α β : Type} [BEq α] {a k : α} (v : β)
    (l : List (α × β)) (h : (a == k) = true) :
    List.lookup a ((k, v) :: l) = some v := by
  simp [List.lookup, h]

theorem lookup_cons_ne {α β : Type} [BEq α] {a k : α} (v : β)
    (l : List (α × β)) (h : (a == k) = false) :
    List.lookup a ((k, v) :: l) = List.lookup a l := by
  simp [List.lookup, h]

theorem mergeSort_two {α : Type} (le : α → α → Bool) (a b : α) :
    [a, b].mergeSort le = if le a b then [a, b] else [b, a] := by
  simp [List.mergeSort, List.splitInTwo, List.merge]

/-! ### Lookup and dict-update lemmas -/

theorem lookup_append_right_of_none {α β : Type} [BEq α]
    (l₁ l₂ : List (α × β)) (a : α) (h : l₁.lookup a = none) :
    (l₁ ++ l₂).lookup a = l₂.lookup a := by
  induction l₁ with
  | nil => simp
  | cons kv t ih =>
    rcases kv with ⟨k, v⟩
    cases hbeq : a == k with
    | false =>
      rw [List.cons_append, lookup_cons_ne v _ hbeq]
      rw [lookup_cons_ne v _ hbeq] at h
      exact ih h
    | true => rw [lookup_cons_eq v _ hbeq] at h; cases h

theorem lookup_append_single_ne {α β : Type} [BEq α]
    (l : List (α × β)) (a k : α) (v : β) (h : (a == k) = false) :
    (l ++ [(k, v)]).lookup a = l.lookup a := by
  induction l with
  | nil => simp [List.lookup, h]
  | cons kv t ih =>
    rcases kv with ⟨k2, v2⟩
    cases hbeq : a == k2 with
    | false =>
      rw [List.cons_append, lookup_cons_ne v2 _ hbeq,
        lookup_cons_ne v2 _ hbeq]
      exact ih
    | true =>
      rw [List.cons_append, lookup_cons_eq v2 _ hbeq,
        lookup_cons_eq v2 _ hbeq]

theorem lookup_map_replace_same (d : Dict) (key : String) (v : Json)
    (h : (d.lookup key).isSome) :
    (d.map (fun kv => if kv.1 = key then (key, v) else kv)).lookup key
      = some v := by
  induction d with
  | nil => simp at h
  | cons kv t ih =>
    rcases kv with ⟨k, w⟩
    cases hbeq : key == k with
    | true =>
      have hk : key = k := eq_of_beq hbeq
      simp only [List.map_cons]
      rw [if_pos (by simp [hk])]
      exact lookup_cons_eq v _ (by simp)
    | false =>
      have hk : k ≠ key := fun hkk => by simp [hkk] at hbeq
      simp only [List.map_cons]
      rw [if_neg (by simpa using hk)]
      rw [lookup_cons_ne w _ hbeq] at h
      rw [lookup_cons_ne w _ hbeq]
      exact ih h

theorem lookup_map_replace_other (d : Dict) (key : String) (v : Json)
    (k2 : String) (h : (k2 == key) = false) :
    (d.map (fun kv => if kv.1 = key then (key, v) else kv)).lookup k2
      = d.lookup k2 := by
  induction d with
  | nil => simp
  | cons kv t ih =>
    rcases kv with ⟨k, w⟩
    by_cases hk : k = key
    · simp only [List.map_cons]
      rw [if_pos (by simp [hk])]
      rw [lookup_cons_ne v _ h, lookup_cons_ne w _ (hk ▸ h)]
      exact ih
    · simp only [List.map_cons]
      rw [if_neg (by simpa using hk)]
      cases hbeq : k2 == k with
      | true => rw [lookup_cons_eq w _ hbeq, lookup_cons_eq w _ hbeq]
      | false =>
        rw [lookup_cons_ne w _ hbeq, lookup_cons_ne w _ hbeq]
        exact ih

theorem lookup_dictSet_same (d : Dict) (key : String) (v : Json) :
    (dictSet d key v).lookup key = some v := by
  unfold dictSet
  cases h : (d.lookup key).isSome with
  | true => rw [if_pos (by simp [h])]; exact lookup_map_replace_same d key v h
  | false =>
    rw [if_neg (by simp [h])]
    rw [lookup_append_right_of_none d _ key
      (Option.not_isSome_iff_eq_none.mp (by simp [h]))]
    exact lookup_cons_eq v _ (by simp)

theorem lookup_dictSet_other (d : Dict) (key : String) (v : Json)
    (k2 : String) (h2 : k2 ≠ key) :
    (dictSet d key v).lookup k2 = d.lookup k2 := by
  have hb : (k2 == key) = false := by simp [h2]
  unfold dictSet
  cases h : (d.lookup key).isSome with
  | true => rw [if_pos (by simp [h])]; exact lookup_map_replace_other d key v k2 hb
  | false => rw [if_neg (by simp [h])]; exact lookup_append_single_ne d k2 key v hb

theorem utilQ_dictSet (d : Dict) (q : ℚ) :
    utilQ (dictSet d "utility" (.num q)) = some q := by
  simp [utilQ, lookup_dictSet_same]

theorem utilKey_dictSet (d : Dict) (q : ℚ) :
    utilKey (dictSet d "utility" (.num q)) = q := by
  simp [utilKey, lookup_dictSet_same]

theorem exceptPure {ε α : Type} (a : α) :
    (pure a : Except ε α) = .ok a := rfl

theorem get_val_zero (car : Dict) (k : String)
    (h : car.lookup k = none ∨ car.lookup k = some .null) :
    get_val car k = .ok 0 := by
  rcases h with h | h <;> simp [get_val, h]

theorem scale_features_ok_elim (car : Dict) (v : List ℚ)
    (hv : scale_features car = .ok v) :
    ∃ p r eff acc fc sc,
      get_val car "price" = .ok p ∧ get_val car "range" = .ok r ∧
      get_val car "efficiency" = .ok eff ∧
      get_val car "acceleration" = .ok acc ∧
      get_val car "fast_charge" = .ok fc ∧
      get_val car "seat_count" = .ok sc ∧
      v = [p / 1000, r / 100, eff / 10, acc, fc / 100, sc] := by
  unfold scale_features at hv
  rcases hp : get_val car "price" with ep | p
  · simp only [hp, exceptBind_error] at hv; exact Except.noConfusion hv
  rcases hr : get_val car "range" with er | r
  · simp only [hp, hr, exceptBind_ok, exceptBind_error] at hv
    exact Except.noConfusion hv
  rcases he : get_val car "efficiency" with ee | eff
  · simp only [hp, hr, he, exceptBind_ok, exceptBind_error] at hv
    exact Except.noConfusion hv
  rcases ha : get_val car "acceleration" with ea | acc
  · simp only [hp, hr, he, ha, exceptBind_ok, exceptBind_error] at hv
    exact Except.noConfusion hv
  rcases hf : get_val car "fast_charge" with ef | fc
  · simp only [hp, hr, he, ha, hf, exceptBind_ok, exceptBind_error] at hv
    exact Except.noConfusion hv
  rcases hs : get_val car "seat_count" with es | sc
  · simp only [hp, hr, he, ha, hf, hs, exceptBind_ok, exceptBind_error] at hv
    exact Except.noConfusion hv
  simp only [hp, hr, he, ha, hf, hs, exceptBind_ok, exceptPure] at hv
  refine ⟨p, r, eff, acc, fc, sc, rfl, rfl, rfl, rfl, rfl, rfl, ?_⟩
  exact (Except.ok.inj hv).symm

theorem coeffArray_error_of_find (coeffs : List (String × ℚ)) :
    ∀ (ks : List String) (key : String),
      ks.find? (fun k2 => (coeffs.lookup k2).isNone) = some key →
      coeffArray coeffs ks = .error (.missingCoefficient key)
  | [], key => by intro h; simp [List.find?] at h
  | k :: t, key => by
    intro h
    rcases hl : coeffs.lookup k with _ | c
    · have hk : k = key := by simp [List.find?, hl] at h; exact h
      subst hk
      simp [coeffArray, coeffIndex, hl, exceptBind_error]
    · have h2 : t.find? (fun k2 => (coeffs.lookup k2).isNone) = some key := by
        simpa [List.find?, hl] using h
      have ih := coeffArray_error_of_find coeffs t key h2
      simp only [coeffArray, coeffIndex, hl, exceptBind_ok, ih,
        exceptBind_error]

/-! ### Claim theorems -/

/-- C1: for every candidate record with all six feature keys present
and numeric and every coefficient vector containing all six keys,
scaling then scoring yields exactly the linear combination
`Σ (raw[key] / divisor[key]) * coeff[key]` with divisors
1000, 100, 10, 1, 100, 1 in fixed key order. -/
theorem scale_then_score_is_linear_combination
    (car : Dict) (coeffs : List (String × ℚ))
    (rp rr re ra rf rs cp cr ce ca cf cs : ℚ)
    (hp : car.lookup "price" = some (.num rp))
    (hr : car.lookup "range" = some (.num rr))
    (he : car.lookup "efficiency" = some (.num re))
    (ha : car.lookup "acceleration" = some (.num ra))
    (hf : car.lookup "fast_charge" = some (.num rf))
    (hs : car.lookup "seat_count" = some (.num rs))
    (hcp : coeffs.lookup "price" = some cp)
    (hcr : coeffs.lookup "range" = some cr)
    (hce : coeffs.lookup "efficiency" = some ce)
    (hca : coeffs.lookup "acceleration" = some ca)
    (hcf : coeffs.lookup "fast_charge" = some cf)
    (hcs : coeffs.lookup "seat_count" = some cs) :
    calculate_utility_score car coeffs =
      .ok (rp / 1000 * cp + rr / 100 * cr + re / 10 * ce + ra * ca
        + rf / 100 * cf + rs * cs) := by
  simp only [calculate_utility_score, scale_features, get_val,
    hp, hr, he, ha, hf, hs, floatCoerce, coeffArray, coeffIndex,
    FEATURE_KEYS, hcp, hcr, hce, hca, hcf, hcs,
    exceptBind_ok, exceptPure]
  congr 1
  simp [List.zip, List.zipWith, List.foldl]

/-- Witness for C1 at the example candidate and default coefficients. -/
theorem scale_then_score_is_linear_combination_witness :
    calculate_utility_score teslaCar DEFAULT_COEFFS =
      .ok ((45000 : ℚ) / 1000 * (-1/2) + 500 / 100 * (4/5)
        + 150 / 10 * (-3/10) + 61/10 * (-1/2) + 170 / 100 * (3/5)
        + 5 * (2/5)) :=
  scale_then_score_is_linear_combination teslaCar DEFAULT_COEFFS
    45000 500 150 (61/10) 170 5 (-1/2) (4/5) (-3/10) (-1/2) (3/5) (2/5)
    rfl rfl rfl rfl rfl rfl rfl rfl rfl rfl rfl rfl

/-- C7: for every candidate record and every feature key among the
six, a missing key or an explicit null yields a scaled component of
exactly `0.0` at that key's position (the divisor is applied to zero,
the key is not skipped: the vector still has all six entries). -/
theorem missing_or_null_feature_scales_to_zero
    (car : Dict) (k : String) (hk : k ∈ FEATURE_KEYS)
    (hmiss : car.lookup k = none ∨ car.lookup k = some .null)
    (v : List ℚ) (hv : scale_features car = .ok v) :
    v.length = 6 ∧ v.get? (FEATURE_KEYS.indexOf k) = some 0 := by
  obtain ⟨p, r, eff, acc, fc, sc, hp, hr, he, ha, hf, hs, hveq⟩ :=
    scale_features_ok_elim car v hv
  have hz := get_val_zero car k hmiss
  subst hveq
  simp only [FEATURE_KEYS, List.mem_cons, List.not_mem_nil,
    or_false] at hk
  rcases hk with rfl | rfl | rfl | rfl | rfl | rfl
  · rw [hz] at hp
    obtain rfl : (0 : ℚ) = p := Except.ok.inj hp
    refine ⟨by simp, ?_⟩
    rw [show FEATURE_KEYS.indexOf "price" = 0 from rfl]
    norm_num
  · rw [hz] at hr
    obtain rfl : (0 : ℚ) = r := Except.ok.inj hr
    refine ⟨by simp, ?_⟩
    rw [show FEATURE_KEYS.indexOf "range" = 1 from rfl]
    norm_num
  · rw [hz] at he
    obtain rfl : (0 : ℚ) = eff := Except.ok.inj he
    refine ⟨by simp, ?_⟩
    rw [show FEATURE_KEYS.indexOf "efficiency" = 2 from rfl]
    norm_num
  · rw [hz] at ha
    obtain rfl : (0 : ℚ) = acc := Except.ok.inj ha
    refine ⟨by simp, ?_⟩
    rw [show FEATURE_KEYS.indexOf "acceleration" = 3 from rfl]
    norm_num
  · rw [hz] at hf
    obtain rfl : (0 : ℚ) = fc := Except.ok.inj hf
    refine ⟨by simp, ?_⟩
    rw [show FEATURE_KEYS.indexOf "fast_charge" = 4 from rfl]
    norm_num
  · rw [hz] at hs
    obtain rfl : (0 : ℚ) = sc := Except.ok.inj hs
    refine ⟨by simp, ?_⟩
    rw [show FEATURE_KEYS.indexOf "seat_count" = 5 from rfl]
    norm_num

/-- Witness for C7: a record with a null `range` and no `fast_charge`
key scales both to `0` (positions 1 and 4). -/
theorem missing_or_null_feature_scales_to_zero_witness :
    ("range" ∈ FEATURE_KEYS ∧
      List.lookup "range"
        [("range", Json.null), ("price", Json.num 1000)]
        = some Json.null) ∧
    ∃ v, scale_features [("range", Json.null), ("price", Json.num 1000)]
        = .ok v ∧
      v.length = 6 ∧ v.get? (FEATURE_KEYS.indexOf "range") = some 0 := by
  refine ⟨⟨by simp [FEATURE_KEYS], rfl⟩, [1, 0, 0, 0, 0, 0], ?_, ?_⟩
  · simp [scale_features, get_val, floatCoerce, lookup_cons_eq,
      lookup_cons_ne, exceptBind_ok]
  · exact missing_or_null_feature_scales_to_zero
      [("range", Json.null), ("price", Json.num 1000)] "range"
      (by simp [FEATURE_KEYS]) (Or.inr rfl) [1, 0, 0, 0, 0, 0]
      (by simp [scale_features, get_val, floatCoerce, lookup_cons_eq,
        lookup_cons_ne, exceptBind_ok])

/-- C8: for every candidate whose features scale successfully and
every coefficient vector missing at least one of the six fixed keys,
scoring fails with `MissingCoefficient` for the first absent key in
fixed key order, and the failure is the call's result (never recovered
into a default). -/
theorem score_fails_on_first_missing_coefficient
    (car : Dict) (coeffs : List (String × ℚ)) (v : List ℚ) (key : String)
    (hscale : scale_features car = .ok v)
    (hfind : FEATURE_KEYS.find? (fun k2 => (coeffs.lookup k2).isNone)
      = some key) :
    calculate_utility_score car coeffs
      = .error (.missingCoefficient key) := by
  simp only [calculate_utility_score, hscale, exceptBind_ok]
  rw [coeffArray_error_of_find coeffs FEATURE_KEYS key hfind,
    exceptBind_error]

/-- Witness for C8: coefficients containing only `price` make scoring
the example candidate fail on `range`, the first absent key. -/
theorem score_fails_on_first_missing_coefficient_witness :
    calculate_utility_score teslaCar [("price", (1 : ℚ))]
      = .error (.missingCoefficient "range") :=
  score_fails_on_first_missing_coefficient teslaCar [("price", (1 : ℚ))]
    [45, 5, 15, 61/10, 17/10, 5] "range"
    (by
      simp [scale_features, get_val, teslaCar, floatCoerce,
        lookup_cons_eq, lookup_cons_ne, exceptBind_ok]
      norm_num)
    rfl

theorem gtNegInf_none (u : ℚ) : gtNegInf u none = true := rfl

theorem gtNegInf_false_elim (u : ℚ) (bu : Option ℚ)
    (h : gtNegInf u bu = false) : ∃ u2, bu = some u2 ∧ u ≤ u2 := by
  cases bu with
  | none => cases h
  | some u2 =>
    refine ⟨u2, rfl, ?_⟩
    have := of_decide_eq_false h
    exact le_of_not_lt this

theorem gtNegInf_true_elim (u : ℚ) (u2 : ℚ)
    (h : gtNegInf u (some u2) = true) : u2 < u :=
  of_decide_eq_true h

theorem find_best_car_loop_inv (coeffs : List (String × ℚ)) :
    ∀ (cars : List Dict) (bc : Option Dict) (bu : Option ℚ)
      (acc : List Dict) (res : Option Dict × List Dict),
      BestInv bc bu acc →
      find_best_car_loop coeffs cars bc bu acc = .ok res →
      BestOut res.1 res.2
  | [], bc, bu, acc, res => by
    intro hinv hloop
    have hres : res = (bc, acc) :=
      (Except.ok.inj hloop).symm
    subst hres
    rcases hinv with ⟨h1, _, h3⟩ | ⟨b, u, h1, _, h3, h4, h5⟩
    · exact Or.inl ⟨h1, h3⟩
    · exact Or.inr ⟨b, u, h1, h3, h4, h5⟩
  | car :: rest, bc, bu, acc, res => by
    intro hinv hloop
    rcases hu : calculate_utility_score car coeffs with e | u
    · simp only [find_best_car_loop, hu, exceptBind_error] at hloop
      exact Except.noConfusion hloop
    · simp only [find_best_car_loop, hu, exceptBind_ok] at hloop
      by_cases hgt : gtNegInf u bu = true
      · rw [if_pos hgt] at hloop
        refine find_best_car_loop_inv coeffs rest _ _ _ _ ?_ hloop
        right
        refine ⟨dictSet car "utility" (.num u), u, rfl, rfl,
          utilQ_dictSet car u, ?_, ?_⟩
        · intro r hr
          rcases List.mem_append.mp hr with hr | hr
          · rcases hinv with ⟨_, h2, h3⟩ | ⟨b, u2, h1, h2, h3, h4, _⟩
            · rw [h3] at hr; cases hr
            · obtain ⟨q, hq, hle⟩ := h4 r hr
              have hlt : u2 < u := gtNegInf_true_elim u u2 (h2 ▸ hgt)
              exact ⟨q, hq, le_of_lt (lt_of_le_of_lt hle hlt)⟩
          · rcases List.mem_singleton.mp hr with rfl
            exact ⟨u, utilQ_dictSet car u, le_refl u⟩
        · rw [List.find?_append]
          have hnone : acc.find? (fun r => decide (utilQ r = some u))
              = none := by
            rw [List.find?_eq_none]
            intro r hr
            rcases hinv with ⟨_, h2, h3⟩ | ⟨b, u2, h1, h2, h3, h4, _⟩
            · rw [h3] at hr; cases hr
            · obtain ⟨q, hq, hle⟩ := h4 r hr
              have hlt : u2 < u := gtNegInf_true_elim u u2 (h2 ▸ hgt)
              simp only [decide_eq_true_eq, hq]
              intro hqq
              have hq2 : q = u := by injection hqq
              rw [hq2] at hle
              exact absurd (lt_of_le_of_lt hle hlt) (lt_irrefl u)
          rw [hnone, Option.none_or]
          simp [utilQ_dictSet]
      · rw [if_neg hgt] at hloop
        obtain ⟨u2, hbu, hle⟩ :=
          gtNegInf_false_elim u bu (Bool.of_not_eq_true hgt)
        rcases hinv with ⟨_, h2, _⟩ | ⟨b, u3, h1, h2, h3, h4, h5⟩
        · rw [h2] at hbu; cases hbu
        · have hu3 : u3 = u2 := by
            rw [h2] at hbu; injection hbu
          subst hu3
          refine find_best_car_loop_inv coeffs rest _ _ _ _ ?_ hloop
          right
          refine ⟨b, u3, h1, h2, h3, ?_, ?_⟩
          · intro r hr
            rcases List.mem_append.mp hr with hr | hr
            · exact h4 r hr
            · rcases List.mem_singleton.mp hr with rfl
              exact ⟨u, utilQ_dictSet car u, hle⟩
          · rw [List.find?_append, h5, Option.or_some]

theorem find_best_car_loop_length (coeffs : List (String × ℚ)) :
    ∀ (cars : List Dict) (bc : Option Dict) (bu : Option ℚ)
      (acc : List Dict) (res : Option Dict × List Dict),
      find_best_car_loop coeffs cars bc bu acc = .ok res →
      res.2.length = acc.length + cars.length
  | [], bc, bu, acc, res => by
    intro h
    have hres : res = (bc, acc) := (Except.ok.inj h).symm
    subst hres
    simp
  | car :: rest, bc, bu, acc, res => by
    intro h
    rcases hu : calculate_utility_score car coeffs with e | u
    · simp only [find_best_car_loop, hu, exceptBind_error] at h
      exact Except.noConfusion h
    · simp only [find_best_car_loop, hu, exceptBind_ok] at h
      by_cases hgt : gtNegInf u bu = true
      · rw [if_pos hgt] at h
        have h2 := find_best_car_loop_length coeffs rest _ _ _ _ h
        simp at h2 ⊢
        omega
      · rw [if_neg hgt] at h
        have h2 := find_best_car_loop_length coeffs rest _ _ _ _ h
        simp at h2 ⊢
        omega

/-- C5: for every non-empty candidate list that ranks successfully,
the candidate recorded as best is the first element (in input order)
of the scored sequence whose utility equals the maximum utility over
all scored elements: later ties do not displace it, and the running
best starts below every real score. -/
theorem best_is_first_max (coeffs : List (String × ℚ))
    (cars : List Dict) (bc : Option Dict) (all : List Dict)
    (hne : cars ≠ [])
    (h : find_best_car coeffs cars = .ok (bc, all)) :
    ∃ b u, bc = some b ∧ utilQ b = some u ∧
      (∀ r ∈ all, ∃ q, utilQ r = some q ∧ q ≤ u) ∧
      all.find? (fun r => decide (utilQ r = some u)) = some b := by
  have hout := find_best_car_loop_inv coeffs cars none none [] (bc, all)
    (Or.inl ⟨rfl, rfl, rfl⟩) h
  have hlen := find_best_car_loop_length coeffs cars none none [] (bc, all) h
  rcases hout with ⟨_, h2⟩ | ⟨b, u, h1, h2, h3, h4⟩
  · exfalso
    simp only at h2 hlen
    rw [h2] at hlen
    simp at hlen
    exact hne (List.length_eq_zero.mp hlen.symm)
  · exact ⟨b, u, h1, h2, h3, h4⟩

/-- Witness for C5: two concrete candidates with utilities `-1/2` and
`-1`; the first is recorded as best and is the first maximum. -/
theorem best_is_first_max_witness :
    ∃ b u,
      (some [("price", Json.num 1000), ("utility", Json.num (-(1/2)))]
        : Option Dict) = some b ∧
      utilQ b = some u ∧
      (∀ r ∈ [[("price", Json.num 1000), ("utility", Json.num (-(1/2)))],
        [("price", Json.num 2000), ("utility", Json.num (-1))]],
        ∃ q, utilQ r = some q ∧ q ≤ u) ∧
      List.find? (fun r => decide (utilQ r = some u))
        [[("price", Json.num 1000), ("utility", Json.num (-(1/2)))],
         [("price", Json.num 2000), ("utility", Json.num (-1))]]
        = some b :=
  best_is_first_max DEFAULT_COEFFS
    [[("price", Json.num 1000)], [("price", Json.num 2000)]]
    (some [("price", Json.num 1000), ("utility", Json.num (-(1/2)))])
    [[("price", Json.num 1000), ("utility", Json.num (-(1/2)))],
     [("price", Json.num 2000), ("utility", Json.num (-1))]]
    (by simp)
    (by
      simp [find_best_car, find_best_car_loop, calculate_utility_score,
        scale_features, get_val, floatCoerce, coeffArray, coeffIndex,
        FEATURE_KEYS, DEFAULT_COEFFS, dictSet, gtNegInf,
        lookup_cons_eq, lookup_cons_ne, exceptBind_ok, exceptPure]
      norm_num)

theorem find_best_car_loop_results (coeffs : List (String × ℚ)) :
    ∀ (cars : List Dict) (bc : Option Dict) (bu : Option ℚ)
      (acc : List Dict) (res : Option Dict × List Dict),
      find_best_car_loop coeffs cars bc bu acc = .ok res →
      ∃ scored, res.2 = acc ++ scored ∧ scored.length = cars.length ∧
        ∀ i car, cars.get? i = some car → ∃ u,
          calculate_utility_score car coeffs = .ok u ∧
          scored.get? i = some (dictSet car "utility" (.num u))
  | [], bc, bu, acc, res => by
    intro h
    have hres : res = (bc, acc) := (Except.ok.inj h).symm
    subst hres
    exact ⟨[], by simp, by simp, by intro i car hc; simp at hc⟩
  | car :: rest, bc, bu, acc, res => by
    intro h
    rcases hu : calculate_utility_score car coeffs with e | u
    · simp only [find_best_car_loop, hu, exceptBind_error] at h
      exact Except.noConfusion h
    · simp only [find_best_car_loop, hu, exceptBind_ok] at h
      have step : ∀ (bc2 : Option Dict) (bu2 : Option ℚ),
          find_best_car_loop coeffs rest bc2 bu2
            (acc ++ [dictSet car "utility" (.num u)]) = .ok res →
          ∃ scored, res.2 = acc ++ scored ∧
            scored.length = (car :: rest).length ∧
            ∀ i c, (car :: rest).get? i = some c → ∃ u2,
              calculate_utility_score c coeffs = .ok u2 ∧
              scored.get? i = some (dictSet c "utility" (.num u2)) := by
        intro bc2 bu2 hh
        obtain ⟨scored, hs1, hs2, hs3⟩ :=
          find_best_car_loop_results coeffs rest bc2 bu2 _ _ hh
        refine ⟨dictSet car "utility" (.num u) :: scored, ?_, ?_, ?_⟩
        · rw [hs1]; simp [List.append_assoc]
        · simp [hs2]
        · intro i c hc
          cases i with
          | zero =>
            simp only [List.get?_cons_zero] at hc
            obtain rfl : car = c := by injection hc
            exact ⟨u, hu, by simp⟩
          | succ n =>
            simp only [List.get?_cons_succ] at hc ⊢
            exact hs3 n c hc
      by_cases hgt : gtNegInf u bu = true
      · rw [if_pos hgt] at h; exact step _ _ h
      · rw [if_neg hgt] at h; exact step _ _ h

/-- C10: every record scored by the ranking loop keeps all its
original keys and values; only the `"utility"` field is set to the
computed score — and a pre-existing `"utility"` key is silently
overwritten (in place) by the computed score. -/
theorem scored_record_preserves_other_fields (coeffs : List (String × ℚ))
    (cars : List Dict) (bc : Option Dict) (all : List Dict)
    (h : find_best_car coeffs cars = .ok (bc, all)) :
    all.length = cars.length ∧
    ∀ i car, cars.get? i = some car → ∃ u,
      calculate_utility_score car coeffs = .ok u ∧
      all.get? i = some (dictSet car "utility" (.num u)) ∧
      (∀ k2, k2 ≠ "utility" →
        (dictSet car "utility" (.num u)).lookup k2 = car.lookup k2) ∧
      (dictSet car "utility" (.num u)).lookup "utility"
        = some (.num u) := by
  obtain ⟨scored, hs1, hs2, hs3⟩ :=
    find_best_car_loop_results coeffs cars none none [] (bc, all) h
  simp only [List.nil_append] at hs1
  subst hs1
  refine ⟨hs2, ?_⟩
  intro i car hc
  obtain ⟨u, hu, hg⟩ := hs3 i car hc
  exact ⟨u, hu, hg,
    fun k2 hk2 => lookup_dictSet_other car "utility" (.num u) k2 hk2,
    lookup_dictSet_same car "utility" (.num u)⟩

/-- Witness for C10 at a single candidate that already carries a
`"utility"` key (value 99): the extra `"name"`-like field is kept and
the stale utility is overwritten by the computed score `-1/2`. -/
theorem scored_record_preserves_other_fields_witness :
    ([[("utility", Json.num (-(1/2))), ("price", Json.num 1000)]]
        : List Dict).length
      = ([[("utility", Json.num 99), ("price", Json.num 1000)]]
        : List Dict).length ∧
    ∀ i car,
      ([[("utility", Json.num 99), ("price", Json.num 1000)]]
        : List Dict).get? i = some car → ∃ u,
      calculate_utility_score car DEFAULT_COEFFS = .ok u ∧
      ([[("utility", Json.num (-(1/2))), ("price", Json.num 1000)]]
        : List Dict).get? i = some (dictSet car "utility" (.num u)) ∧
      (∀ k2, k2 ≠ "utility" →
        (dictSet car "utility" (.num u)).lookup k2 = car.lookup k2) ∧
      (dictSet car "utility" (.num u)).lookup "utility"
        = some (.num u) :=
  scored_record_preserves_other_fields DEFAULT_COEFFS
    [[("utility", Json.num 99), ("price", Json.num 1000)]]
    (some [("utility", Json.num (-(1/2))), ("price", Json.num 1000)])
    [[("utility", Json.num (-(1/2))), ("price", Json.num 1000)]]
    (by
      simp [find_best_car, find_best_car_loop, calculate_utility_score,
        scale_features, get_val, floatCoerce, coeffArray, coeffIndex,
        FEATURE_KEYS, DEFAULT_COEFFS, dictSet, gtNegInf,
        lookup_cons_eq, lookup_cons_ne, exceptBind_ok, exceptPure]
      norm_num)

theorem find_best_from_list_loop_results (coeffs : List (String × ℚ)) :
    ∀ (cars : List Dict) (bc : Option Dict) (bu : Option ℚ)
      (acc : List Dict) (res : Option Dict × List Dict),
      find_best_from_list_loop coeffs cars bc bu acc = .ok res →
      ∃ scored, score_all coeffs cars = .ok scored ∧
        res.2 = acc ++ scored
  | [], bc, bu, acc, res => by
    intro h
    have hres : res = (bc, acc) := (Except.ok.inj h).symm
    subst hres
    exact ⟨[], rfl, by simp⟩
  | car :: rest, bc, bu, acc, res => by
    intro h
    rcases hu : calculate_utility_score car coeffs with e | u
    · simp only [find_best_from_list_loop, hu, exceptBind_error] at h
      exact Except.noConfusion h
    · simp only [find_best_from_list_loop, hu, exceptBind_ok] at h
      have step : ∀ (bc2 : Option Dict) (bu2 : Option ℚ),
          find_best_from_list_loop coeffs rest bc2 bu2
            (acc ++ [dictSet car "utility" (.num (round4 u))]) = .ok res →
          ∃ scored, score_all coeffs (car :: rest) = .ok scored ∧
            res.2 = acc ++ scored := by
        intro bc2 bu2 hh
        obtain ⟨scored, hsa, hs1⟩ :=
          find_best_from_list_loop_results coeffs rest bc2 bu2 _ _ hh
        refine ⟨dictSet car "utility" (.num (round4 u)) :: scored, ?_, ?_⟩
        · simp only [score_all, hu, hsa, exceptBind_ok, exceptPure]
        · rw [hs1]; simp [List.append_assoc]
      by_cases hgt : gtNegInf u bu = true
      · rw [if_pos hgt] at h; exact step _ _ h
      · rw [if_neg hgt] at h; exact step _ _ h

theorem score_all_utilQ (coeffs : List (String × ℚ)) :
    ∀ (cars scored : List Dict), score_all coeffs cars = .ok scored →
      ∀ r ∈ scored, (utilQ r).isSome
  | [], scored => by
    intro h r hr
    have hs : scored = [] := (Except.ok.inj h).symm
    subst hs
    cases hr
  | car :: rest, scored => by
    intro h r hr
    rcases hu : calculate_utility_score car coeffs with e | u
    · simp only [score_all, hu, exceptBind_error] at h
      exact Except.noConfusion h
    · rcases hs : score_all coeffs rest with e | cs
      · simp only [score_all, hu, hs, exceptBind_ok, exceptBind_error] at h
        exact Except.noConfusion h
      · simp only [score_all, hu, hs, exceptBind_ok, exceptPure] at h
        have hsc : dictSet car "utility" (.num (round4 u)) :: cs = scored :=
          Except.ok.inj h
        subst hsc
        rcases List.mem_cons.mp hr with rfl | hr
        · simp [utilQ_dictSet]
        · exact score_all_utilQ coeffs rest cs hs r hr

theorem utilDescLE_trans (a b c : Dict)
    (hab : utilDescLE a b) (hbc : utilDescLE b c) : utilDescLE a c := by
  simp only [utilDescLE, decide_eq_true_eq] at hab hbc ⊢
  exact le_trans hbc hab

theorem utilDescLE_total (a b : Dict) :
    utilDescLE a b || utilDescLE b a := by
  simp only [utilDescLE, Bool.or_eq_true, decide_eq_true_eq]
  exact le_total (utilKey b) (utilKey a)

/-- C6: for every non-empty candidate list that ranks successfully,
the output sequence is a permutation of the in-order scored records,
sorted by utility in non-increasing order, and the sort is stable:
two records with equal utility retain their relative input order. -/
theorem rank_sorted_perm_desc_stable (coeffs : List (String × ℚ))
    (cars : List Dict) (bc : Option Dict) (sorted : List Dict)
    (hne : cars ≠ [])
    (h : find_best_from_list coeffs cars = .ok (bc, sorted)) :
    ∃ inorder, score_all coeffs cars = .ok inorder ∧
      sorted.Perm inorder ∧
      sorted.Pairwise (fun a b => utilKey b ≤ utilKey a) ∧
      (∀ r ∈ inorder, (utilQ r).isSome) ∧
      (∀ r1 r2, [r1, r2].Sublist inorder → utilKey r1 = utilKey r2 →
        [r1, r2].Sublist sorted) := by
  rcases hloop : find_best_from_list_loop coeffs cars none none []
    with e | pr
  · simp only [find_best_from_list, hloop, exceptBind_error] at h
    exact Except.noConfusion h
  · obtain ⟨bc2, all⟩ := pr
    simp only [find_best_from_list, hloop, exceptBind_ok,
      exceptPure] at h
    obtain ⟨hbc, hsorted⟩ : bc2 = bc ∧ all.mergeSort utilDescLE = sorted := by
      have hp := Except.ok.inj h
      exact ⟨congrArg Prod.fst hp, congrArg Prod.snd hp⟩
    obtain ⟨scored, hsa, hacc⟩ :=
      find_best_from_list_loop_results coeffs cars none none []
        (bc2, all) hloop
    simp only [List.nil_append] at hacc
    subst hacc
    subst hsorted
    refine ⟨all, hsa, ?_, ?_, score_all_utilQ coeffs cars all hsa, ?_⟩
    · exact List.mergeSort_perm all utilDescLE
    · have hs := List.sorted_mergeSort
        (fun a b c hab hbc => utilDescLE_trans a b c hab hbc)
        utilDescLE_total all
      exact hs.imp (fun hab => by
        simpa [utilDescLE, decide_eq_true_eq] using hab)
    · intro r1 r2 hsub heq
      exact List.pair_sublist_mergeSort
        (fun a b c hab hbc => utilDescLE_trans a b c hab hbc)
        utilDescLE_total (by simp [utilDescLE, heq]) hsub

/-- Witness for C6 at a single concrete candidate. -/
theorem rank_sorted_perm_desc_stable_witness :
    ∃ inorder,
      score_all DEFAULT_COEFFS [[("price", Json.num 1000)]]
        = .ok inorder ∧
      ([[("price", Json.num 1000),
          ("utility", Json.num (round4 (-(1/2))))]] : List Dict).Perm
        inorder ∧
      ([[("price", Json.num 1000),
          ("utility", Json.num (round4 (-(1/2))))]] : List Dict).Pairwise
        (fun a b => utilKey b ≤ utilKey a) ∧
      (∀ r ∈ inorder, (utilQ r).isSome) ∧
      (∀ r1 r2, [r1, r2].Sublist inorder → utilKey r1 = utilKey r2 →
        [r1, r2].Sublist
          [[("price", Json.num 1000),
            ("utility", Json.num (round4 (-(1/2))))]]) :=
  rank_sorted_perm_desc_stable DEFAULT_COEFFS
    [[("price", Json.num 1000)]]
    (some [("price", Json.num 1000),
      ("utility", Json.num (round4 (-(1/2))))])
    [[("price", Json.num 1000), ("utility", Json.num (round4 (-(1/2))))]]
    (by simp)
    (by
      simp [find_best_from_list, find_best_from_list_loop,
        calculate_utility_score, scale_features, get_val, floatCoerce,
        coeffArray, coeffIndex, FEATURE_KEYS, DEFAULT_COEFFS, dictSet,
        gtNegInf, lookup_cons_eq, lookup_cons_ne, exceptBind_ok,
        exceptPure, exceptMap_ok]
      norm_num)

/-- C3: for every user identifier, `get_user_coefficients`
distinguishes the two store outcomes: no value at key
`"params:" ++ user_id` yields the full default coefficient vector,
while a stored value that is not valid JSON fails with the
`MalformedCoefficients` parse error instead of silently defaulting. -/
theorem resolve_absent_defaults_and_malformed_errors
    (store store2 : Store) (user_id : String)
    (h1 : store (redis_key user_id) = none)
    (h2 : store2 (redis_key user_id) = some none) :
    get_user_coefficients store user_id = .ok DEFAULT_COEFFS_json ∧
    get_user_coefficients store2 user_id
      = .error .malformedCoefficients := by
  constructor
  · unfold get_user_coefficients; rw [h1]
  · unfold get_user_coefficients; rw [h2]

/-- Witness for C3 at the concrete user `"benjo"`, with a store that
has no value at the key and one holding an unparsable value. -/
theorem resolve_absent_defaults_and_malformed_errors_witness :
    get_user_coefficients (fun _ => none) "benjo"
      = .ok DEFAULT_COEFFS_json ∧
    get_user_coefficients (fun _ => some none) "benjo"
      = .error .malformedCoefficients :=
  resolve_absent_defaults_and_malformed_errors
    (fun _ => none) (fun _ => some none) "benjo" rfl rfl

/-- C4: for every stored value parsing to a JSON object, if the
`"coeffs"` field is absent the full default coefficient vector is
returned (all other envelope fields ignored); if present, the
contained value is returned as-is, unvalidated. -/
theorem resolve_envelope_coeffs_field
    (store : Store) (user_id : String) (fields : List (String × Json))
    (h : store (redis_key user_id) = some (some (.obj fields))) :
    (fields.lookup "coeffs" = none →
      get_user_coefficients store user_id = .ok DEFAULT_COEFFS_json) ∧
    (∀ v, fields.lookup "coeffs" = some v →
      get_user_coefficients store user_id = .ok v) := by
  have hg : get_user_coefficients store user_id
      = .ok ((fields.lookup "coeffs").getD DEFAULT_COEFFS_json) := by
    unfold get_user_coefficients; rw [h]
  constructor
  · intro hn; rw [hg, hn]; rfl
  · intro v hv; rw [hg, hv]; rfl

/-- Witness for C4: an envelope with only other fields resolves to the
full default vector, and an envelope with a `"coeffs"` field resolves
to that field's value as-is (even a non-object value). -/
theorem resolve_envelope_coeffs_field_witness :
    get_user_coefficients
      (fun _ => some (some (.obj [("other", .num 1)]))) "u"
      = .ok DEFAULT_COEFFS_json ∧
    get_user_coefficients
      (fun _ => some (some (.obj [("coeffs", .str "raw"), ("z", .null)])))
      "u" = .ok (.str "raw") := by
  constructor
  · exact (resolve_envelope_coeffs_field _ "u" _ rfl).1
      (by simp [List.lookup])
  · exact (resolve_envelope_coeffs_field _ "u" _ rfl).2 _
      (by simp [List.lookup])

/-- C2 counterexample: both ranking entry points, called with an empty
candidate list, return successfully (best candidate `none`, empty
sequence) — no `EmptyCandidateList` failure occurs. -/
theorem empty_candidates_no_failure_counterexample :
    find_best_car DEFAULT_COEFFS [] = .ok (none, []) ∧
    find_best_from_list DEFAULT_COEFFS [] = .ok (none, []) := by
  constructor
  · rfl
  · simp [find_best_from_list, find_best_from_list_loop,
      exceptBind_ok, exceptMap_ok]

/-- C2 amended: for every coefficient vector, the ranking operations
given an empty candidate list do not fail; they return a result with
no best candidate (`none`) and an empty output sequence. -/
theorem empty_candidates_returns_ok (coeffs : List (String × ℚ)) :
    find_best_car coeffs [] = .ok (none, []) ∧
    find_best_from_list coeffs [] = .ok (none, []) := by
  constructor
  · rfl
  · simp [find_best_from_list, find_best_from_list_loop,
      exceptBind_ok, exceptMap_ok]

/-- C9: with the default coefficients, the example candidate
`{price:45000, range:500, efficiency:150, acceleration:6.1,
fast_charge:170, seat_count:5}` scales to exactly
`[45, 5, 15, 6.1, 1.7, 5]` and scores exactly
`-23.03 = -22.5 + 4.0 - 4.5 - 3.05 + 1.02 + 2.0`. -/
theorem default_scenario_exact_values :
    scale_features teslaCar = .ok [45, 5, 15, 61/10, 17/10, 5] ∧
    calculate_utility_score teslaCar DEFAULT_COEFFS
      = .ok (-2303/100) ∧
    ((-2303 : ℚ)/100) = -22.5 + 4.0 + (-4.5) + (-3.05) + 1.02 + 2.0 := by
  refine ⟨?_, ?_, by norm_num⟩
  · simp [scale_features, get_val, teslaCar, floatCoerce,
      lookup_cons_eq, lookup_cons_ne, exceptBind_ok]
    norm_num
  · simp [calculate_utility_score, scale_features, get_val, teslaCar,
      floatCoerce, coeffArray, coeffIndex, FEATURE_KEYS, DEFAULT_COEFFS,
      lookup_cons_eq, lookup_cons_ne, exceptBind_ok]
    norm_num

end UtilityMCP

